import Mathlib

/-!
# Verification of the dog-image uploader (DOGAPI.py)

A shallow embedding of the program in `src/DOGAPI.py`: a CLI tool that fetches
random dog images per breed/sub-breed from the dog.ceo API and re-uploads each
image by URL to Yandex.Disk, recording per-item outcomes to `results.json`.

HTTP is modelled by environments that give, for each request the program can
issue, either a transport failure (`none`, i.e. `requests` raised) or a parsed
response (`some` of a status code, possibly with a decoded JSON body).  All
program functions are total Lean functions over those environments, mirroring
the Python control flow statement by statement.
-/

namespace DogApi

/-! ## HTTP response model -/

/-- JSON body of a dog.ceo image endpoint: `{status, message: url}`. -/
structure ApiImageBody where
  status : String
  message : String
deriving Repr, DecidableEq

/-- JSON body of `GET /breeds/list/all`: `{status, message: mapping}`.
The mapping from breed to sub-breeds is an association list (a Python dict
with string keys, in insertion order). -/
structure ApiCatalogBody where
  status : String
  message : List (String × List String)
deriving Repr, DecidableEq

/-- A transport outcome: `none` when `requests` raised (timeout, connection
failure), `some r` when a response `r` came back. -/
abbrev Transport (α : Type) := Option α

/-! ## `os.path.dirname` (posixpath) and `YandexDiskUploader` -/

/-- The prefix of `cs` up to and including the last slash (`[]` when there is
no slash): Python's `p[:p.rfind(sep) + 1]` for `sep = '/'`. -/
def takeToLastSlash (cs : List Char) : List Char :=
  (cs.reverse.dropWhile (fun c => c != '/')).reverse

/-- Remove trailing slashes: Python's `head.rstrip(sep)`. -/
def dropTrailingSlashes (cs : List Char) : List Char :=
  (cs.reverse.dropWhile (fun c => c == '/')).reverse

/-- Python's `os.path.dirname` for posix paths: everything up to the last slash, with
trailing slashes stripped unless the head is empty or all slashes. -/
def dirname (s : String) : String :=
  let head := takeToLastSlash s.data
  if !head.isEmpty && head.any (fun c => c != '/') then
    String.mk (dropTrailingSlashes head)
  else
    String.mk head

/-- Responses the Yandex.Disk API gives this run.  `createFolderResp path` is
the status code answered to `PUT /resources?path=...` (folder create) at
`path`; `uploadResp n url path` is the status code answered to the `n`-th
`POST /resources/upload?path=...&url=...` (`n = 0` the first attempt,
`n = 1` the retry). -/
structure DiskEnv where
  createFolderResp : String → Transport Nat
  uploadResp : Nat → String → String → Transport Nat

/-- Embeds `YandexDiskUploader.create_folder`: true iff the folder-create request
answers 201 (created) or 409 (already exists); any other code, or a raised
exception, gives `False`. -/
def create_folder (resp : Transport Nat) : Bool :=
  match resp with
  | none => false
  | some code => code == 201 || code == 409

/-- Embeds `YandexDiskUploader.upload_from_url`: POST the upload-by-URL request; 202
is immediate success; on 409 derive the parent folder with
`os.path.dirname`, create it, and if that worked retry the POST once,
succeeding iff the retry answers 202; everything else (including any raised
exception) is `False`. -/
def upload_from_url (env : DiskEnv) (image_url yandex_path : String) : Bool :=
  match env.uploadResp 0 image_url yandex_path with
  | none => false
  | some code =>
    if code = 202 then true
    else if code = 409 then
      let folder_path := dirname yandex_path
      if create_folder (env.createFolderResp folder_path) then
        match env.uploadResp 1 image_url yandex_path with
        | none => false
        | some code2 => code2 == 202
      else false
    else false

/-- How many upload POSTs `upload_from_url` issues at `yandex_path`: always
the first attempt, plus the retry exactly when the first answered 409 and the
folder create succeeded. -/
def upload_attempts (env : DiskEnv) (image_url yandex_path : String) : Nat :=
  match env.uploadResp 0 image_url yandex_path with
  | none => 1
  | some code =>
    if code = 202 then 1
    else if code = 409 then
      if create_folder (env.createFolderResp (dirname yandex_path)) then 2 else 1
    else 1

/-! ## `urllib.parse.urlparse` (path component) and `ImageFilenameHelper`

`get_filename_from_url` calls `os.path.basename(urlparse(url).path)`.  We
embed the path extraction of CPython's `urllib.parse`: sanitize the raw URL
(the WHATWG lstrip of C0 controls/space, then removal of tab/CR/LF), split
off `scheme:`, `//netloc`, `#fragment`, `?query` and the `;params` of the
last path segment. -/

/-- Characters allowed after the first character of a URL scheme. -/
def scheme_chars : List Char :=
  "abcdefghijklmnopqrstuvwxyzABCDEFGHIJKLMNOPQRSTUVWXYZ0123456789+-.".data

/-- CPython's pre-parse cleanup: strip leading C0-control-or-space characters,
then delete every tab, CR and LF. -/
def sanitizeUrl (cs : List Char) : List Char :=
  (cs.dropWhile (fun c => c.toNat ≤ 0x20)).filter
    (fun c => c != '\t' && c != '\r' && c != '\n')

/-- Remove a leading `scheme:` when the text before the first colon is a
nonempty ASCII-letter-headed run of scheme characters. -/
def splitScheme (cs : List Char) : List Char :=
  let pre := cs.takeWhile (fun c => c != ':')
  let ok := pre.length < cs.length &&
    (match pre with
     | [] => false
     | c :: rest => c.isAlpha && rest.all (fun d => scheme_chars.contains d))
  if ok then cs.drop (pre.length + 1) else cs

/-- A character that does not end the netloc (`_splitnetloc` stops at the
first `/`, `?` or `#`). -/
def notNetlocDelim (c : Char) : Bool := c != '/' && c != '?' && c != '#'

/-- The netloc of a `//`-prefixed remainder: position 2 up to the first
delimiter (`_splitnetloc(url, 2)`, first component). -/
def netlocOf (cs : List Char) : List Char := (cs.drop 2).takeWhile notNetlocDelim

/-- The text of a bracketed netloc host:
`netloc.partition('[')[2].partition(']')[0]`. -/
def bracketedHost (netloc : List Char) : List Char :=
  ((netloc.dropWhile (fun c => c != '[')).drop 1).takeWhile (fun c => c != ']')

/-- A hex digit as `ipaddress._HEX_DIGITS` accepts it. -/
def isHexDigitChar (c : Char) : Bool :=
  ('0' ≤ c && c ≤ '9') || ('a' ≤ c && c ≤ 'f') || ('A' ≤ c && c ≤ 'F')

/-- The decimal value of a digit run (used for the octet range check). -/
def decOfDigits (cs : List Char) : Nat :=
  cs.foldl (fun n c => n * 10 + (c.toNat - '0'.toNat)) 0

/-- One IPv4 octet, as `ipaddress._BaseV4._parse_octet` accepts it:
nonempty, decimal digits only, at most 3 characters, no leading zero
(except `"0"` itself), value at most 255. -/
def validOctet (cs : List Char) : Bool :=
  !cs.isEmpty && cs.all (fun c => c.isDigit) && cs.length ≤ 3 &&
  (cs = ['0'] || cs.headD '0' != '0') && decOfDigits cs ≤ 255

/-- A valid IPv4 address text (`IPv4Address.__init__` on a string): no `/`,
nonempty, exactly 4 valid octets split on `.`. -/
def validIPv4 (cs : List Char) : Bool :=
  !cs.contains '/' && !cs.isEmpty &&
  (List.splitOn '.' cs).length == 4 && (List.splitOn '.' cs).all validOctet

/-- One IPv6 hextet, as `ipaddress._BaseV6._parse_hextet` accepts it: hex
digits only, at most 4 characters, nonempty (`int('', 16)` raises). -/
def validHextet (cs : List Char) : Bool :=
  cs.all isHexDigitChar && cs.length ≤ 4 && !cs.isEmpty

/-- The `::` analysis of `ipaddress._BaseV6._ip_int_from_string` when one
interior part is empty (a `skipped` zero run): empty endpoints must belong
to the `::`, at most 7 other parts, and every surviving part is a valid
hextet. -/
def validV6Skip (parts : List (List Char)) (skip : Nat) : Bool :=
  let hi := if (parts.headD []).isEmpty then skip - 1 else skip
  let lo := if (parts.getLastD []).isEmpty then parts.length - skip - 2
            else parts.length - skip - 1
  if (parts.headD []).isEmpty && hi != 0 then false
  else if (parts.getLastD []).isEmpty && lo != 0 then false
  else if 7 < hi + lo then false
  else (parts.take hi).all validHextet &&
    (parts.drop (parts.length - lo)).all validHextet

/-- The body of `ipaddress._BaseV6._ip_int_from_string` after the minimum
part count and the dotted-quad suffix are handled: at most 9 colon-split
parts, then the analysis of a single `::` (`validV6Skip`, above) or, with
no `::`, exactly 8 parts with no empty endpoints, each a valid hextet. -/
def validV6Parts (parts : List (List Char)) : Bool :=
  if 9 < parts.length then false
  else
    if ((parts.drop 1).dropLast.filter (fun p => p.isEmpty)).length ≥ 2 then
      false
    else if ((parts.drop 1).dropLast.filter (fun p => p.isEmpty)).length = 1 then
      validV6Skip parts (1 + (parts.drop 1).dropLast.findIdx (fun p => p.isEmpty))
    else
      parts.length == 8 && !(parts.headD []).isEmpty &&
      !(parts.getLastD []).isEmpty && parts.all validHextet

/-- A valid IPv6 address text without scope
(`ipaddress._BaseV6._ip_int_from_string`): nonempty, at least 3 colon-split
parts, a dotted last part must be a valid IPv4 address (then stands for two
synthetic hextets), then the `::` analysis of `validV6Parts`. -/
def validIPv6NoScope (cs : List Char) : Bool :=
  if cs.isEmpty then false
  else if (List.splitOn ':' cs).length < 3 then false
  else if (List.splitOn ':' cs).getLastD [] |>.contains '.' then
    validIPv4 ((List.splitOn ':' cs).getLastD []) &&
    validV6Parts ((List.splitOn ':' cs).dropLast ++ [['0'], ['0']])
  else validV6Parts (List.splitOn ':' cs)

/-- A valid IPv6 address text with optional `%scope`
(`IPv6Address.__init__`): no `/`; a `%` must be followed by a nonempty
scope id containing no further `%`. -/
def validIPv6Scoped (cs : List Char) : Bool :=
  if cs.contains '/' then false
  else if cs.contains '%' then
    !((cs.dropWhile (fun c => c != '%')).drop 1).isEmpty &&
    !((cs.dropWhile (fun c => c != '%')).drop 1).contains '%' &&
    validIPv6NoScope (cs.takeWhile (fun c => c != '%'))
  else validIPv6NoScope cs

/-- `urllib.parse._check_bracketed_host` as a predicate: a host starting
with `v` must match `\Av[a-fA-F0-9]+\..+\Z` (an IPvFuture literal; by this
point tab/CR/LF are already removed, so `.` matches every remaining
character); any other host must be a valid IPv6 address — and a valid IPv4
address in brackets is rejected. -/
def bracketedHostOk (host : List Char) : Bool :=
  if host.headD ' ' = 'v' then
    !(host.tail.takeWhile isHexDigitChar).isEmpty &&
    (host.tail.dropWhile isHexDigitChar).headD ' ' == '.' &&
    2 ≤ (host.tail.dropWhile isHexDigitChar).length
  else !validIPv4 host && validIPv6Scoped host

/-- Remove a leading `//netloc`: drop position 2 up to the next `/`, `?` or
`#`.  CPython validates square brackets in the netloc first: unbalanced
brackets raise `ValueError("Invalid IPv6 URL")`, and a balanced pair must
satisfy `_check_bracketed_host`; `none` models that raise.  (The NFKC
check of `_checknetloc`, which can only fire on non-ASCII netlocs, is not
modelled: the embedding covers URLs whose netloc is ASCII.) -/
def splitNetloc (cs : List Char) : Option (List Char) :=
  if cs.take 2 = ['/', '/'] then
    if ((netlocOf cs).contains '[' && !(netlocOf cs).contains ']') ||
       ((netlocOf cs).contains ']' && !(netlocOf cs).contains '[') then none
    else if (netlocOf cs).contains '[' && (netlocOf cs).contains ']' then
      if bracketedHostOk (bracketedHost (netlocOf cs)) then
        some ((cs.drop 2).dropWhile notNetlocDelim)
      else none
    else some ((cs.drop 2).dropWhile notNetlocDelim)
  else some cs

/-- The suffix of `cs` after the last slash (`cs` itself when there is no
slash): Python's `p[p.rfind(sep) + 1:]`, i.e. `posixpath.basename`. -/
def afterLastSlash (cs : List Char) : List Char :=
  (cs.reverse.takeWhile (fun c => c != '/')).reverse

/-- The `;params` split of `urlparse`: cut the first `;` of the last path
segment (of the whole text when there is no slash). -/
def splitParams (cs : List Char) : List Char :=
  if cs.contains ';' then
    if cs.contains '/' then
      if (afterLastSlash cs).contains ';' then
        takeToLastSlash cs ++ (afterLastSlash cs).takeWhile (fun c => c != ';')
      else cs
    else cs.takeWhile (fun c => c != ';')
  else cs

/-- Computes `urlparse(url).path` as a character list; `none` when
`urlsplit` raises `ValueError` from its netloc bracket validation. -/
def urlparse_path (url : String) : Option (List Char) :=
  match splitNetloc (splitScheme (sanitizeUrl url.data)) with
  | none => none
  | some cs =>
    some (splitParams ((cs.takeWhile (fun c => c != '#')).takeWhile
      (fun c => c != '?')))

/-- Embeds `ImageFilenameHelper.get_filename_from_url`: the basename of the URL's
parsed path, or the fixed fallback `"image.jpg"` when that basename is empty
or has no dot; `none` when `urlparse` raises (the caller's bare `except`
then catches the `ValueError`). -/
def get_filename_from_url (url : String) : Option String :=
  match urlparse_path url with
  | none => none
  | some path =>
    if (afterLastSlash path).isEmpty || !(afterLastSlash path).contains '.' then
      some "image.jpg"
    else some (String.mk (afterLastSlash path))

/-! ## `DogAPI` -/

/-- Embeds `_get_image_url`: GET the random-image endpoint; `raise_for_status`
re-raises on HTTP ≥ 400; a 2xx/3xx body with `status == "success"` yields the
`message` URL, anything else raises.  `none` stands for a raised exception
(the Python function always raises on failure, with a descriptive message). -/
def get_image_url (resp : Transport (Nat × ApiImageBody)) : Option String :=
  match resp with
  | none => none
  | some (code, body) =>
    if code < 400 then
      if body.status = "success" then some body.message else none
    else none

/-- Embeds `DogAPI.get_all_breeds`: GET `/breeds/list/all`; on a transport error or
an HTTP ≥ 400 response (`raise_for_status`) the handler prints and returns the
empty mapping; otherwise the body's `message` field is returned as-is — the
body's own `status` field is never inspected. -/
def get_all_breeds (resp : Transport (Nat × ApiCatalogBody)) :
    List (String × List String) :=
  match resp with
  | none => []
  | some (code, body) => if code < 400 then body.message else []

/-! ## Upload records and per-image processing -/

/-- One entry of `results.json`. -/
structure UploadRecord where
  breed : String
  sub_breed : Option String
  image_url : Option String
  yandex_disk_path : String
  status : String
deriving Repr, DecidableEq

/-- Everything the outside world answers while one image slot is processed:
the random-image GET, and the disk requests of its upload. -/
structure ImageEnv where
  fetch : Transport (Nat × ApiImageBody)
  disk : DiskEnv

/-- Embeds `DogImageUploader._process_breed_image`: fetch a random image URL, build
`folder_path + f"{breed}_{filename}"`, upload, and append one record; when the
fetch raised, append the fallback `failed` record with a `None` URL instead. -/
def process_breed_image (img : ImageEnv) (breed folder_path : String) :
    UploadRecord :=
  match get_image_url img.fetch with
  | some image_url =>
    match get_filename_from_url image_url with
    | some filename =>
      let yandex_path := folder_path ++ breed ++ "_" ++ filename
      let success := upload_from_url img.disk image_url yandex_path
      { breed := breed, sub_breed := none, image_url := some image_url,
        yandex_disk_path := yandex_path,
        status := if success then "uploaded" else "failed" }
    | none =>
      -- the bare except also catches the ValueError raised by extraction
      { breed := breed, sub_breed := none, image_url := none,
        yandex_disk_path := folder_path ++ breed ++ "_image.jpg",
        status := "failed" }
  | none =>
    { breed := breed, sub_breed := none, image_url := none,
      yandex_disk_path := folder_path ++ breed ++ "_image.jpg",
      status := "failed" }

/-- Embeds `DogImageUploader._process_sub_breed_image`: as the main-breed slot, with
path `folder_path + f"{breed}_{sub_breed}_{filename}"`. -/
def process_sub_breed_image (img : ImageEnv) (breed sub_breed folder_path : String) :
    UploadRecord :=
  match get_image_url img.fetch with
  | some image_url =>
    match get_filename_from_url image_url with
    | some filename =>
      let yandex_path := folder_path ++ breed ++ "_" ++ sub_breed ++ "_" ++ filename
      let success := upload_from_url img.disk image_url yandex_path
      { breed := breed, sub_breed := some sub_breed, image_url := some image_url,
        yandex_disk_path := yandex_path,
        status := if success then "uploaded" else "failed" }
    | none =>
      -- the bare except also catches the ValueError raised by extraction
      { breed := breed, sub_breed := some sub_breed, image_url := none,
        yandex_disk_path := folder_path ++ breed ++ "_" ++ sub_breed ++ "_image.jpg",
        status := "failed" }
  | none =>
    { breed := breed, sub_breed := some sub_breed, image_url := none,
      yandex_disk_path := folder_path ++ breed ++ "_" ++ sub_breed ++ "_image.jpg",
      status := "failed" }

/-- Upload POSTs issued while processing the main-breed slot (none when the
image fetch raised, since control jumps to the fallback record). -/
def breed_image_calls (img : ImageEnv) (breed folder_path : String) : Nat :=
  match get_image_url img.fetch with
  | none => 0
  | some image_url =>
    match get_filename_from_url image_url with
    | none => 0
    | some filename =>
      upload_attempts img.disk image_url (folder_path ++ breed ++ "_" ++ filename)

/-- Upload POSTs issued while processing one sub-breed slot. -/
def sub_image_calls (img : ImageEnv) (breed sub_breed folder_path : String) : Nat :=
  match get_image_url img.fetch with
  | none => 0
  | some image_url =>
    match get_filename_from_url image_url with
    | none => 0
    | some filename =>
      upload_attempts img.disk image_url
        (folder_path ++ breed ++ "_" ++ sub_breed ++ "_" ++ filename)

/-! ## The orchestrator `DogImageUploader.run` -/

/-- Python's `str.strip()`: drop leading and trailing whitespace. -/
def pyStrip (s : String) : String :=
  String.mk (((s.data.dropWhile Char.isWhitespace).reverse.dropWhile
    Char.isWhitespace).reverse)

/-- Python's `str.lower()` (ASCII case fold). -/
def pyLower (s : String) : String :=
  String.mk (s.data.map Char.toLower)

/-- Which terminal message the run printed: one early-exit failure each, or
the final success banner. -/
inductive RunExit where
  | emptyToken
  | catalogFailed
  | breedNotFound
  | folderFailed
  | done
deriving Repr, DecidableEq

/-- Everything the outside world feeds one whole run: the two `input()`
answers, the catalog response, the response to the initial folder create of
`/{breed}/`, one `ImageEnv` per image slot, and whether the final
`open`/`json.dump` of `results.json` succeeds. -/
structure RunEnv where
  breedInput : String
  tokenInput : String
  catalogResp : Transport (Nat × ApiCatalogBody)
  folderResp : Transport Nat
  mainImage : ImageEnv
  subImages : Nat → ImageEnv

/-- Observable outcome of a run: the in-memory records, whether
`results.json` was written, whether the save-error message was printed, the
terminal message, how many upload POSTs went out, and the progress-bar
total. -/
structure RunResult where
  results : List UploadRecord
  fileWritten : Bool
  saveErrorShown : Bool
  exit : RunExit
  uploadCalls : Nat
  totalFiles : Nat
deriving Repr, DecidableEq

/-- Embeds `DogImageUploader.run`: strip/lowercase the breed, strip the token, stop
on an empty token, a failed/empty catalog, an unknown breed, or a failed
folder create; otherwise process the main slot then every sub-breed slot in
catalog order, save the records, and report success. `saveOk` is whether the
final file write succeeds. -/
def run (env : RunEnv) (saveOk : Bool) : RunResult :=
  let breed := pyLower (pyStrip env.breedInput)
  let token := pyStrip env.tokenInput
  if token = "" then
    ⟨[], false, false, .emptyToken, 0, 0⟩
  else
    let breeds := get_all_breeds env.catalogResp
    if breeds.isEmpty then
      ⟨[], false, false, .catalogFailed, 0, 0⟩
    else
      match List.lookup breed breeds with
      | none => ⟨[], false, false, .breedNotFound, 0, 0⟩
      | some sub_breeds =>
        let total_files := if !sub_breeds.isEmpty then 1 + sub_breeds.length else 1
        let yandex_folder := "/" ++ breed ++ "/"
        if !create_folder env.folderResp then
          ⟨[], false, false, .folderFailed, 0, 0⟩
        else
          let mainRec := process_breed_image env.mainImage breed yandex_folder
          let subRecs := sub_breeds.enum.map
            (fun p => process_sub_breed_image (env.subImages p.1) breed p.2 yandex_folder)
          let calls := breed_image_calls env.mainImage breed yandex_folder +
            (sub_breeds.enum.map
              (fun p => sub_image_calls (env.subImages p.1) breed p.2 yandex_folder)).sum
          ⟨mainRec :: subRecs, saveOk, !saveOk, .done, calls, total_files⟩

/-! ## The `timeout=` arguments

One entry per `requests` call site of the source, in source order: the
random-image GET of `_get_image_url`, the catalog GET of `get_all_breeds`,
the folder-create PUT of `create_folder`, and the two upload POSTs of
`upload_from_url`. -/

/-- The bound (in seconds) passed as `timeout=` at each call site. -/
def requestTimeouts : List (String × Nat) :=
  [("dog_api_random_image", 10),
   ("dog_api_breeds_list", 10),
   ("disk_create_folder", 10),
   ("disk_upload_first", 30),
   ("disk_upload_retry", 30)]

/-! ## Sample environments (used by concrete-scenario theorems and witnesses) -/

/-- A disk that creates every folder and accepts every upload at once. -/
def sampleDisk : DiskEnv := ⟨fun _ => some 201, fun _ _ _ => some 202⟩

/-- A successful random-image response carrying `u`. -/
def sampleImage (u : String) : ImageEnv := ⟨some (200, ⟨"success", u⟩), sampleDisk⟩

/-- An image slot whose fetch raised (transport error). -/
def failedImage : ImageEnv := ⟨none, sampleDisk⟩

/-- The catalog of the spec's concrete scenario. -/
def houndCatalog : List (String × List String) :=
  [("akita", []), ("hound", ["afghan", "blood"])]

/-- The concrete scenario: breed `"hound"` against `houndCatalog`, every
request succeeding. -/
def houndEnv : RunEnv :=
  { breedInput := "hound"
    tokenInput := "token123"
    catalogResp := some (200, ⟨"success", houndCatalog⟩)
    folderResp := some 201
    mainImage := sampleImage "https://images.dog.ceo/breeds/hound/main.jpg"
    subImages := fun i =>
      if i = 0 then sampleImage "https://images.dog.ceo/breeds/hound-afghan/afghan1.jpg"
      else sampleImage "https://images.dog.ceo/breeds/hound-blood/blood1.jpg" }

/-- A run whose token answer is blank after stripping. -/
def emptyTokenEnv : RunEnv := { houndEnv with tokenInput := "   " }

/-! ## `ResultSaver.save`: the bytes `json.dump(results, f,
ensure_ascii=False, indent=4)` writes

The renderer below produces, character for character, the text Python's
`json.dump` emits for the list of record dicts (keys in insertion order,
4-space indentation, `": "` and `","` separators).  It is written in
continuation-passing style — every piece takes the text that follows it —
so the round-trip proof can walk the document left to right. -/

/-- Lowercase hex digit of `n < 16`, as in Python's `'%04x'` formatting. -/
def hexDigitLower (n : Nat) : Char :=
  if n < 10 then Char.ofNat ('0'.toNat + n) else Char.ofNat ('a'.toNat + n - 10)

/-- Python json's per-character escaping with `ensure_ascii=False`: only `"`,
`\` and C0 controls are escaped (`\b \f \n \r \t` short, the rest `\u00xx`);
every other character — non-ASCII included — stays literal. -/
def pyEscapeChar (c : Char) : List Char :=
  if c = '"' then ['\\', '"']
  else if c = '\\' then ['\\', '\\']
  else if c = '\x08' then ['\\', 'b']
  else if c = '\x0c' then ['\\', 'f']
  else if c = '\n' then ['\\', 'n']
  else if c = '\x0d' then ['\\', 'r']
  else if c = '\t' then ['\\', 't']
  else if c.toNat < 0x20 then
    ['\\', 'u', '0', '0', hexDigitLower (c.toNat / 16), hexDigitLower (c.toNat % 16)]
  else [c]

/-- A JSON string literal: quote, escaped characters, quote, then `rest`. -/
def renderJsonString (s : String) (rest : List Char) : List Char :=
  '"' :: (s.data.flatMap pyEscapeChar ++ ('"' :: rest))

/-- A string-or-null value (`None` prints as `null`). -/
def renderOptString (o : Option String) (rest : List Char) : List Char :=
  match o with
  | none => 'n' :: 'u' :: 'l' :: 'l' :: rest
  | some s => renderJsonString s rest

/-- Four spaces: one `indent=4` level. -/
def ind4 : List Char := [' ', ' ', ' ', ' ']

/-- Eight spaces: the member lines of a depth-1 object. -/
def ind8 : List Char := ind4 ++ ind4

/-- One `"key": value` member line at depth 2. -/
def renderMember (key : String) (o : Option String) (rest : List Char) :
    List Char :=
  ind8 ++ '"' :: (key.data ++ '"' :: ':' :: ' ' :: renderOptString o rest)

/-- One record object, keys in the dict's insertion order, members separated
by `",\n"`, closing brace on a 4-space-indented line. -/
def renderRecord (r : UploadRecord) (rest : List Char) : List Char :=
  '\x7b' :: '\n' ::
    renderMember "breed" (some r.breed) (',' :: '\n' ::
      renderMember "sub_breed" r.sub_breed (',' :: '\n' ::
        renderMember "image_url" r.image_url (',' :: '\n' ::
          renderMember "yandex_disk_path" (some r.yandex_disk_path) (',' :: '\n' ::
            renderMember "status" (some r.status)
              ('\n' :: (ind4 ++ '\x7d' :: rest))))))

/-- After one record: either the closing bracket line, or a comma and the
next record. -/
def renderResultsTail : List UploadRecord → List Char → List Char
  | [], rest => '\n' :: ']' :: rest
  | r :: rs, rest => ',' :: '\n' :: (ind4 ++ renderRecord r (renderResultsTail rs rest))

/-- The whole `results.json` document: `[]` for no records, else the
bracketed newline-separated list. -/
def renderResults (rs : List UploadRecord) : List Char :=
  match rs with
  | [] => ['[', ']']
  | r :: rs => '[' :: '\n' :: (ind4 ++ renderRecord r (renderResultsTail rs []))

/-! ## `json.loads`, restricted to the grammar of the saved document -/

/-- JSON inter-token whitespace. -/
def isJsonWs (c : Char) : Bool := c == ' ' || c == '\t' || c == '\n' || c == '\x0d'

/-- Skip inter-token whitespace. -/
def dropJsonWs (cs : List Char) : List Char := cs.dropWhile isJsonWs

/-- Value of one hex digit, any case. -/
def hexDigitValue (c : Char) : Option Nat :=
  if '0' ≤ c ∧ c ≤ '9' then some (c.toNat - '0'.toNat)
  else if 'a' ≤ c ∧ c ≤ 'f' then some (c.toNat - 'a'.toNat + 10)
  else if 'A' ≤ c ∧ c ≤ 'F' then some (c.toNat - 'A'.toNat + 10)
  else none

/-- Decode one single-character escape (`\\x` for `x` in `"\\/bfnrt`). -/
def escCode (e : Char) : Option Char :=
  if e = '"' then some '"'
  else if e = '\\' then some '\\'
  else if e = '/' then some '/'
  else if e = 'b' then some '\x08'
  else if e = 'f' then some '\x0c'
  else if e = 'n' then some '\n'
  else if e = 'r' then some '\x0d'
  else if e = 't' then some '\t'
  else none

/-- The body of a string literal, after its opening quote: characters up to
the unescaped closing quote, undoing the JSON escapes. -/
def parseStringBody : List Char → Option (List Char × List Char)
  | [] => none
  | c :: rest =>
    if c = '"' then some ([], rest)
    else if c = '\\' then
      match rest with
      | [] => none
      | e :: r =>
        if e = 'u' then
          match r with
          | h1 :: h2 :: h3 :: h4 :: r2 =>
            match hexDigitValue h1, hexDigitValue h2, hexDigitValue h3, hexDigitValue h4 with
            | some a, some b, some v3, some v4 =>
              (parseStringBody r2).map
                (fun p => (Char.ofNat (((a * 16 + b) * 16 + v3) * 16 + v4) :: p.1, p.2))
            | _, _, _, _ => none
          | _ => none
        else
          match escCode e with
          | some d => (parseStringBody r).map (fun p => (d :: p.1, p.2))
          | none => none
    else (parseStringBody rest).map (fun p => (c :: p.1, p.2))

/-- A string-or-null value. -/
def parseOptString (cs : List Char) : Option (Option String × List Char) :=
  if cs.take 4 = ['n', 'u', 'l', 'l'] then some (none, cs.drop 4)
  else
    match cs with
    | [] => none
    | c :: rest =>
      if c = '"' then
        (parseStringBody rest).map (fun p => (some (String.mk p.1), p.2))
      else none

/-- Expect (after whitespace) the single token character `a`. -/
def expectChar (a : Char) (cs : List Char) : Option (List Char) :=
  match dropJsonWs cs with
  | c :: r => if c = a then some r else none
  | [] => none

/-- One `"key": value` member, checking the key is the expected one. -/
def parseMember (key : String) (cs : List Char) :
    Option (Option String × List Char) :=
  match dropJsonWs cs with
  | [] => none
  | c :: r =>
    if c = '"' then
      match parseStringBody r with
      | some (k, r1) =>
        if k = key.data then
          match dropJsonWs r1 with
          | [] => none
          | c2 :: r2 => if c2 = ':' then parseOptString (dropJsonWs r2) else none
        else none
      | none => none
    else none

/-- A member whose value must be a string (not `null`). -/
def parseStrMember (key : String) (cs : List Char) :
    Option (String × List Char) :=
  match parseMember key cs with
  | some (some s, rest) => some (s, rest)
  | _ => none

/-- One record object: brace, the five members in order, brace. -/
def parseRecord (cs : List Char) : Option (UploadRecord × List Char) := do
  let r0 ← expectChar '\x7b' cs
  let (breed, r1) ← parseStrMember "breed" r0
  let r2 ← expectChar ',' r1
  let (sub, r3) ← parseMember "sub_breed" r2
  let r4 ← expectChar ',' r3
  let (iu, r5) ← parseMember "image_url" r4
  let r6 ← expectChar ',' r5
  let (pathv, r7) ← parseStrMember "yandex_disk_path" r6
  let r8 ← expectChar ',' r7
  let (st, r9) ← parseStrMember "status" r8
  let r10 ← expectChar '\x7d' r9
  return (⟨breed, sub, iu, pathv, st⟩, r10)

/-- One-or-more comma-separated records, up to the closing bracket.  `fuel`
only bounds the recursion; callers pass more than the record count. -/
def parseItems : Nat → List Char → Option (List UploadRecord × List Char)
  | 0, _ => none
  | fuel + 1, cs => do
    let (r, rest) ← parseRecord cs
    match dropJsonWs rest with
    | [] => none
    | c :: r2 =>
      if c = ',' then do
        let (rs, rest2) ← parseItems fuel r2
        return (r :: rs, rest2)
      else if c = ']' then some ([r], r2)
      else none

/-- A record array: `[]`, or bracketed comma-separated records. -/
def parseResults (cs : List Char) : Option (List UploadRecord × List Char) :=
  match dropJsonWs cs with
  | [] => none
  | c :: r =>
    if c = '[' then
      match dropJsonWs r with
      | [] => none
      | c2 :: r1 => if c2 = ']' then some ([], r1) else parseItems (cs.length + 1) r
    else none

/-- Models `json.loads` of a saved document: the array, then nothing but trailing
whitespace. -/
def json_loads_results (s : String) : Option (List UploadRecord) :=
  match parseResults s.data with
  | some (rs, rest) => if dropJsonWs rest = [] then some rs else none
  | none => none

/-! ## Theorems -/

/-- Both branches of the main-breed slot leave `sub_breed` empty. -/
theorem process_breed_image_sub_breed (img : ImageEnv) (breed folder_path : String) :
    (process_breed_image img breed folder_path).sub_breed = none := by
  unfold process_breed_image
  split <;> first | rfl | (split <;> rfl)

/-- Both branches of a sub-breed slot record that sub-breed. -/
theorem process_sub_breed_image_sub_breed (img : ImageEnv)
    (breed sub_breed folder_path : String) :
    (process_sub_breed_image img breed sub_breed folder_path).sub_breed = some sub_breed := by
  unfold process_sub_breed_image
  split <;> first | rfl | (split <;> rfl)

/-- C5: For every response, `create_folder` returns true exactly when the
folder-create request answers HTTP 201 (created) or HTTP 409 (already
exists); it returns false for every other code and on any transport error
(`none`), and — being a total function into `Bool` — never lets an exception
reach the caller. -/
theorem create_folder_true_iff (resp : Transport Nat) :
    create_folder resp = true ↔ resp = some 201 ∨ resp = some 409 := by
  cases resp <;> simp [create_folder]

/-- C1: For every source URL and destination path, `upload_from_url`
returns true exactly when the first upload POST answers 202, or the first
answers 409 (missing folder), `create_folder` on the parent folder
(`dirname` of the destination path) succeeds, and the single retry answers
202; every other code and a transport error at any step give false, and the
function is total into `Bool`, so no exception propagates.  Moreover the
upload POST goes out twice exactly when the 409-and-folder-created fallback
fires, once otherwise: the retry happens exactly once. -/
theorem upload_from_url_true_iff (env : DiskEnv) (image_url yandex_path : String) :
    (upload_from_url env image_url yandex_path = true ↔
      env.uploadResp 0 image_url yandex_path = some 202 ∨
      (env.uploadResp 0 image_url yandex_path = some 409 ∧
       create_folder (env.createFolderResp (dirname yandex_path)) = true ∧
       env.uploadResp 1 image_url yandex_path = some 202)) ∧
    upload_attempts env image_url yandex_path =
      (if env.uploadResp 0 image_url yandex_path = some 409 ∧
          create_folder (env.createFolderResp (dirname yandex_path)) = true
       then 2 else 1) := by
  constructor
  case right =>
    unfold upload_attempts
    cases hfirst : env.uploadResp 0 image_url yandex_path with
    | none => simp
    | some code =>
      by_cases h202 : code = 202
      · subst h202
        simp
      · simp only [if_neg h202, Option.some.injEq]
        by_cases h409 : code = 409
        · subst h409
          by_cases hcf : create_folder (env.createFolderResp (dirname yandex_path)) = true
          · simp [hcf]
          · simp only [Bool.not_eq_true] at hcf
            simp [hcf]
        · simp [h409]
  case left =>
  unfold upload_from_url
  cases hfirst : env.uploadResp 0 image_url yandex_path with
  | none => simp
  | some code =>
    by_cases h202 : code = 202
    · subst h202; simp
    · simp only [if_neg h202, Option.some.injEq]
      by_cases h409 : code = 409
      · subst h409
        by_cases hcf : create_folder (env.createFolderResp (dirname yandex_path)) = true
        · simp only [if_pos hcf, hcf]
          cases hretry : env.uploadResp 1 image_url yandex_path with
          | none => simp
          | some code2 => simp
        · simp only [Bool.not_eq_true] at hcf
          simp [hcf]
      · simp [h202, h409]

/-- C2: Once the run passes breed resolution and folder creation, it
appends exactly `N + 1` records for `N` sub-breeds — slot order: the breed
itself, then the sub-breeds in catalog order — no matter what the image
fetches and uploads answer; and when the main fetch raised, the appended
record is the `failed` fallback with the fixed fallback filename. -/
theorem run_record_per_slot (env : RunEnv) (saveOk : Bool) (subs : List String)
    (htok : pyStrip env.tokenInput ≠ "")
    (hsubs : List.lookup (pyLower (pyStrip env.breedInput))
      (get_all_breeds env.catalogResp) = some subs)
    (hfold : create_folder env.folderResp = true) :
    (run env saveOk).results.length = subs.length + 1 ∧
    (run env saveOk).results.map (fun r => r.sub_breed) =
      none :: subs.map (fun s => some s) ∧
    (get_image_url env.mainImage.fetch = none →
      (run env saveOk).results.head? = some
        { breed := pyLower (pyStrip env.breedInput), sub_breed := none,
          image_url := none,
          yandex_disk_path := "/" ++ pyLower (pyStrip env.breedInput) ++ "/" ++
            pyLower (pyStrip env.breedInput) ++ "_image.jpg",
          status := "failed" }) := by
  have hne : (get_all_breeds env.catalogResp).isEmpty = false := by
    cases hcat : get_all_breeds env.catalogResp with
    | nil => rw [hcat] at hsubs; simp [List.lookup] at hsubs
    | cons a l => rfl
  unfold run
  simp only [hne, hsubs, hfold, Bool.not_true, Bool.false_eq_true,
    if_false, ite_false, if_neg htok]
  refine ⟨?_, ?_, ?_⟩
  · simp [List.enum_length]
  · simp only [List.map_cons, process_breed_image_sub_breed, List.cons.injEq,
      true_and, List.map_map]
    have hcong : List.map ((fun r : UploadRecord => r.sub_breed) ∘
        fun p : Nat × String =>
          process_sub_breed_image (env.subImages p.1) (pyLower (pyStrip env.breedInput))
            p.2 ("/" ++ pyLower (pyStrip env.breedInput) ++ "/")) subs.enum =
        List.map (fun p : Nat × String => some p.2) subs.enum :=
      List.map_congr_left (fun p _ => process_sub_breed_image_sub_breed ..)
    rw [hcong, show (fun p : Nat × String => some p.2) =
      ((fun s : String => some s) ∘ Prod.snd) from rfl, ← List.map_map,
      List.enum_map_snd]
  · intro hfetch
    simp only [List.head?_cons, Option.some.injEq]
    unfold process_breed_image
    rw [hfetch]

/-- C7: On each of the four early-exit conditions — empty (stripped)
credential, empty/failed catalog, requested breed absent, or folder-create
failure — the run stops with a failure message (`exit ≠ done`), issues no
upload POST, appends no record, and writes no result file. -/
theorem run_early_exit (env : RunEnv) (saveOk : Bool)
    (h : pyStrip env.tokenInput = "" ∨
         get_all_breeds env.catalogResp = [] ∨
         List.lookup (pyLower (pyStrip env.breedInput))
           (get_all_breeds env.catalogResp) = none ∨
         create_folder env.folderResp = false) :
    (run env saveOk).results = [] ∧
    (run env saveOk).fileWritten = false ∧
    (run env saveOk).uploadCalls = 0 ∧
    (run env saveOk).exit ≠ RunExit.done := by
  unfold run
  by_cases htok : pyStrip env.tokenInput = ""
  · simp [htok]
  · simp only [if_neg htok]
    by_cases hcat : (get_all_breeds env.catalogResp).isEmpty
    · simp [hcat]
    · simp only [hcat, if_false, Bool.false_eq_true]
      have hcat' : ¬ get_all_breeds env.catalogResp = [] := by
        intro he
        rw [he] at hcat
        exact hcat rfl
      cases hlk : List.lookup (pyLower (pyStrip env.breedInput))
          (get_all_breeds env.catalogResp) with
      | none => simp
      | some subs =>
        have hfold : create_folder env.folderResp = false := by
          rcases h with h | h | h | h
          · exact absurd h htok
          · exact absurd h hcat'
          · rw [hlk] at h; exact absurd h (by simp)
          · exact h
        simp [hfold]

/-- C3 counterexample: A 2xx reply whose JSON body carries the
non-success status `"error"` is *not* treated as a failed catalog fetch:
`get_all_breeds` returns the body's `message` mapping unchanged, so the run
does not see an empty catalog. -/
theorem get_all_breeds_ignores_body_status :
    get_all_breeds (some (200, ⟨"error", [("fake", [])]⟩)) ≠ [] := by
  decide

/-- C3 amended: `get_all_breeds` is failed — returns the empty catalog,
which the run treats as fatal — on every transport error and on every HTTP
error response (status ≥ 400, re-raised by `raise_for_status`); a 2xx/3xx
reply's `message` mapping is returned without inspecting the body's own
`status` field. -/
theorem get_all_breeds_failure_cases (resp : Transport (Nat × ApiCatalogBody)) :
    (resp = none → get_all_breeds resp = []) ∧
    (∀ code body, resp = some (code, body) → 400 ≤ code →
      get_all_breeds resp = []) ∧
    (∀ code body, resp = some (code, body) → code < 400 →
      get_all_breeds resp = body.message) ∧
    (∀ env saveOk, pyStrip env.tokenInput ≠ "" → get_all_breeds env.catalogResp = [] →
      (run env saveOk).exit = RunExit.catalogFailed ∧
      (run env saveOk).results = [] ∧ (run env saveOk).fileWritten = false) := by
  refine ⟨?_, ?_, ?_, ?_⟩
  · rintro rfl; rfl
  · rintro code body rfl hge
    simp [get_all_breeds, Nat.not_lt.mpr hge]
  · rintro code body rfl hlt
    simp [get_all_breeds, hlt]
  · intro env saveOk htok hcat
    unfold run
    simp [if_neg htok, hcat]

/-- C3 witness: An HTTP 500 reply yields the empty catalog, via
`get_all_breeds_failure_cases`. -/
theorem get_all_breeds_failure_cases_witness :
    get_all_breeds (some (500, ⟨"success", [("akita", [])]⟩)) = [] :=
  (get_all_breeds_failure_cases (some (500, ⟨"success", [("akita", [])]⟩))).2.1
    500 ⟨"success", [("akita", [])]⟩ rfl (by decide)

/-- C4 counterexample: Not every request is configured with a 10-second
timeout: the upload POSTs of `upload_from_url` pass `timeout=30`. -/
theorem not_every_timeout_is_ten :
    ¬ ∀ p ∈ requestTimeouts, p.2 = 10 := by
  decide

/-- C4 amended: Every outbound request is configured with a bounded
timeout — 10 seconds for the dog-API GETs and the folder create, 30 seconds
for the upload POSTs — and a timeout or transport error at any call site
surfaces as an ordinary failure value (empty catalog, fetch error, boolean
false), never an uncaught crash. -/
theorem timeouts_bounded_and_errors_contained :
    (∀ p ∈ requestTimeouts, 0 < p.2 ∧ (p.2 = 10 ∨ p.2 = 30)) ∧
    get_all_breeds none = [] ∧
    get_image_url none = none ∧
    create_folder none = false ∧
    (∀ (env : DiskEnv) (u p : String), env.uploadResp 0 u p = none →
      upload_from_url env u p = false) ∧
    (∀ (env : DiskEnv) (u p : String), env.uploadResp 0 u p = some 409 →
      env.uploadResp 1 u p = none → upload_from_url env u p = false) := by
  refine ⟨by decide, rfl, rfl, rfl, ?_, ?_⟩
  · intro env u p h
    unfold upload_from_url
    rw [h]
  · intro env u p h1 h2
    unfold upload_from_url
    rw [h1, h2]
    simp

/-- C4 witness: A transport error on the first upload POST comes back as
`false`, via `timeouts_bounded_and_errors_contained`. -/
theorem timeouts_bounded_witness :
    upload_from_url ⟨fun _ => some 201, fun _ _ _ => none⟩ "u" "/a/b.jpg" = false :=
  timeouts_bounded_and_errors_contained.2.2.2.2.1
    ⟨fun _ => some 201, fun _ _ _ => none⟩ "u" "/a/b.jpg" rfl

/-- C9: In the concrete scenario — catalog
`akita ↦ [], hound ↦ [afghan, blood]`, breed `hound` — the progress total is
`3 = 1 + 2`, and the three destination paths are `/hound/hound_<file>`,
`/hound/hound_afghan_<file>`, `/hound/hound_blood_<file>` for the extracted
filenames. -/
theorem hound_scenario :
    (run houndEnv true).totalFiles = 3 ∧
    (run houndEnv true).results.map (fun r => r.yandex_disk_path) =
      ["/hound/hound_main.jpg",
       "/hound/hound_afghan_afghan1.jpg",
       "/hound/hound_blood_blood1.jpg"] := by
  decide

/-- C10 counterexample: A record with `image_url` `None` can come from a
slot whose image fetch succeeded: when the fetched URL is
`http://[/a.jpg`, `urlparse` raises `ValueError: Invalid IPv6 URL` inside
`get_filename_from_url`, the slot's bare `except` catches it, and the
fallback record is appended — refuting "image_url is None only in records
produced by the fetch-failure branch". -/
theorem record_invariant_counterexample :
    get_image_url (some (200, ⟨"success", "http://[/a.jpg"⟩)) =
      some "http://[/a.jpg" ∧
    (process_breed_image ⟨some (200, ⟨"success", "http://[/a.jpg"⟩), sampleDisk⟩
      "hound" "/hound/").image_url = none := by
  decide

/-- C10 amended: Record invariant of both per-image slots: a record is
`"uploaded"` only when its `image_url` is present; the `image_url` is
absent exactly when the slot's `try` block raised — the image fetch raised,
or the fetch succeeded and filename extraction raised `ValueError` on the
fetched URL — and in either case the record is `failed` with the
deterministic fallback path ending in the fallback filename `image.jpg`. -/
theorem record_invariant (img : ImageEnv) (breed sub_breed folder_path : String) :
    ((process_breed_image img breed folder_path).status = "uploaded" →
      (process_breed_image img breed folder_path).image_url ≠ none) ∧
    ((process_breed_image img breed folder_path).image_url = none ↔
      (get_image_url img.fetch = none ∨
       ∃ u, get_image_url img.fetch = some u ∧ get_filename_from_url u = none)) ∧
    ((process_breed_image img breed folder_path).image_url = none →
      (process_breed_image img breed folder_path).status = "failed" ∧
      (process_breed_image img breed folder_path).yandex_disk_path =
        folder_path ++ breed ++ "_image.jpg") ∧
    ((process_sub_breed_image img breed sub_breed folder_path).status = "uploaded" →
      (process_sub_breed_image img breed sub_breed folder_path).image_url ≠ none) ∧
    ((process_sub_breed_image img breed sub_breed folder_path).image_url = none ↔
      (get_image_url img.fetch = none ∨
       ∃ u, get_image_url img.fetch = some u ∧ get_filename_from_url u = none)) ∧
    ((process_sub_breed_image img breed sub_breed folder_path).image_url = none →
      (process_sub_breed_image img breed sub_breed folder_path).status = "failed" ∧
      (process_sub_breed_image img breed sub_breed folder_path).yandex_disk_path =
        folder_path ++ breed ++ "_" ++ sub_breed ++ "_image.jpg") := by
  unfold process_breed_image process_sub_breed_image
  cases hf : get_image_url img.fetch with
  | none => simp
  | some u =>
    cases hg : get_filename_from_url u with
    | none => simp [hg]
    | some fn =>
      simp only [hg, Option.some.injEq, reduceCtorEq]
      refine ⟨?_, by simp [hg], by simp, ?_, by simp [hg], by simp⟩
      · intro _ h
        exact Option.noConfusion h
      · intro _ h
        exact Option.noConfusion h

/-- C2 witness: The hound scenario passes the guards, so it yields
`2 + 1` records, via `run_record_per_slot`. -/
theorem run_record_per_slot_witness :
    (run houndEnv true).results.length = 2 + 1 :=
  (run_record_per_slot houndEnv true ["afghan", "blood"] (by decide) (by decide)
    (by decide)).1

/-- C7 witness: The blank-token run exits early with no records, no file
and no upload calls, via `run_early_exit`. -/
theorem run_early_exit_witness :
    (run emptyTokenEnv true).results = [] ∧
    (run emptyTokenEnv true).fileWritten = false ∧
    (run emptyTokenEnv true).uploadCalls = 0 ∧
    (run emptyTokenEnv true).exit ≠ RunExit.done :=
  run_early_exit emptyTokenEnv true (Or.inl (by decide))

/-- C10 witness: A raised image fetch produces the fallback `failed`
record, via `record_invariant`. -/
theorem record_invariant_witness :
    (process_breed_image failedImage "hound" "/hound/").status = "failed" ∧
    (process_breed_image failedImage "hound" "/hound/").yandex_disk_path =
      "/hound/" ++ "hound" ++ "_image.jpg" :=
  (record_invariant failedImage "hound" "afghan" "/hound/").2.2.1 rfl

/-! ## Filename-extraction lemmas (for C6) -/

/-- A list's `contains` is `false` when no element matches. -/
theorem contains_eq_false_of_forall {l : List Char} {a : Char}
    (h : ∀ c ∈ l, c ≠ a) : l.contains a = false := by
  rw [Bool.eq_false_iff]
  intro hc
  exact h a (List.mem_of_elem_eq_true hc) rfl

/-- A character of `takeToLastSlash cs` is a character of `cs`. -/
theorem mem_takeToLastSlash {a : Char} {cs : List Char}
    (h : a ∈ takeToLastSlash cs) : a ∈ cs := by
  unfold takeToLastSlash at h
  rw [List.mem_reverse] at h
  exact List.mem_reverse.mp ((List.dropWhile_sublist _).subset h)

/-- A character of `afterLastSlash cs` is a character of `cs`. -/
theorem mem_afterLastSlash {a : Char} {cs : List Char}
    (h : a ∈ afterLastSlash cs) : a ∈ cs := by
  unfold afterLastSlash at h
  rw [List.mem_reverse] at h
  exact List.mem_reverse.mp ((List.takeWhile_sublist _).subset h)

/-- The suffix `afterLastSlash` returns never keeps a slash. -/
theorem afterLastSlash_ne_slash {a : Char} {cs : List Char}
    (h : a ∈ afterLastSlash cs) : a ≠ '/' := by
  unfold afterLastSlash at h
  rw [List.mem_reverse] at h
  simpa using List.mem_takeWhile_imp h

/-- The head of a `dropWhile` result fails the predicate. -/
theorem head_dropWhile_false {p : Char → Bool} (l : List Char) :
    ∀ {c t}, l.dropWhile p = c :: t → p c = false := by
  induction l with
  | nil => intro c t h; simp [List.dropWhile] at h
  | cons x xs ih =>
    intro c t h
    rw [List.dropWhile_cons] at h
    by_cases hx : p x = true
    · exact ih (by simpa [hx] using h)
    · rw [if_neg hx] at h
      cases h
      exact Bool.eq_false_iff.mpr hx

/-- A `takeWhile` walks through a prefix every element of which passes. -/
theorem takeWhile_append_of_all {p : Char → Bool} {l1 l2 : List Char}
    (h : ∀ c ∈ l1, p c = true) :
    (l1 ++ l2).takeWhile p = l1 ++ l2.takeWhile p := by
  rw [List.takeWhile_append, List.takeWhile_eq_self_iff.mpr h, if_pos rfl]

/-- Applying `afterLastSlash` to `xs ++ t` keeps all of a slash-free `t`. -/
theorem afterLastSlash_append {xs t : List Char} (h : ∀ c ∈ t, c ≠ '/') :
    afterLastSlash (xs ++ t) = afterLastSlash xs ++ t := by
  unfold afterLastSlash
  rw [List.reverse_append,
    takeWhile_append_of_all (fun c hc => by simp [h c (List.mem_reverse.mp hc)]),
    List.reverse_append, List.reverse_reverse]

/-- Since `takeToLastSlash` ends in a slash (or is empty), so its basename is empty. -/
theorem afterLastSlash_takeToLastSlash (cs : List Char) :
    afterLastSlash (takeToLastSlash cs) = [] := by
  unfold afterLastSlash takeToLastSlash
  rw [List.reverse_reverse]
  cases hd : cs.reverse.dropWhile (fun c => c != '/') with
  | nil => simp
  | cons c t =>
    have hc : c = '/' := by simpa using head_dropWhile_false _ hd
    rw [List.takeWhile_cons_of_neg (by simp [hc])]
    rfl

/-- All slash-free lists are `afterLastSlash`-fixed. -/
theorem afterLastSlash_eq_self {l : List Char} (h : ∀ c ∈ l, c ≠ '/') :
    afterLastSlash l = l := by
  unfold afterLastSlash
  rw [List.takeWhile_eq_self_iff.mpr
    (fun c hc => by simp [h c (List.mem_reverse.mp hc)]), List.reverse_reverse]

/-- The basename of a parsed path never contains a `;`: `splitParams` removes
the parameters of the last segment, and earlier `;` live before the last
slash. -/
theorem semicolon_not_mem_basename (cs : List Char) :
    ';' ∉ afterLastSlash (splitParams cs) := by
  unfold splitParams
  split_ifs with h1 h2 h3
  · intro hmem
    rw [afterLastSlash_append
        (fun c hc => afterLastSlash_ne_slash ((List.takeWhile_sublist _).subset hc)),
      afterLastSlash_takeToLastSlash, List.nil_append] at hmem
    simpa using List.mem_takeWhile_imp hmem
  · intro hmem
    exact absurd (List.elem_eq_true_of_mem hmem) h3
  · intro hmem
    simpa using List.mem_takeWhile_imp (mem_afterLastSlash hmem)
  · intro hmem
    exact absurd (List.elem_eq_true_of_mem (mem_afterLastSlash hmem)) h1

/-- A character of `splitParams cs` is a character of `cs`. -/
theorem mem_splitParams {a : Char} {cs : List Char}
    (h : a ∈ splitParams cs) : a ∈ cs := by
  unfold splitParams at h
  split_ifs at h
  · rcases List.mem_append.mp h with h | h
    · exact mem_takeToLastSlash h
    · exact mem_afterLastSlash ((List.takeWhile_sublist _).subset h)
  · exact h
  · exact (List.takeWhile_sublist _).subset h
  · exact h

/-- A character of a successful `splitNetloc cs` is a character of `cs`. -/
theorem mem_splitNetloc {a : Char} {cs res : List Char}
    (h : splitNetloc cs = some res) (ha : a ∈ res) : a ∈ cs := by
  unfold splitNetloc at h
  split_ifs at h
  all_goals
    first
    | exact Option.noConfusion h
    | (injection h with h
       subst h
       first
       | exact ha
       | exact List.drop_subset _ _ ((List.dropWhile_sublist _).subset ha))

/-- A character of `splitScheme cs` is a character of `cs`. -/
theorem mem_splitScheme {a : Char} {cs : List Char}
    (h : a ∈ splitScheme cs) : a ∈ cs := by
  simp only [splitScheme] at h
  split at h
  · exact List.drop_subset _ _ h
  · exact h

/-- Inversion of a successful parse: the netloc split succeeded and the path
is the post-netloc remainder stripped of fragment, query and parameters. -/
theorem urlparse_path_some {url : String} {p : List Char}
    (hp : urlparse_path url = some p) :
    ∃ cs, splitNetloc (splitScheme (sanitizeUrl url.data)) = some cs ∧
      p = splitParams ((cs.takeWhile (fun c => c != '#')).takeWhile
        (fun c => c != '?')) := by
  unfold urlparse_path at hp
  cases hn : splitNetloc (splitScheme (sanitizeUrl url.data)) with
  | none => rw [hn] at hp; exact Option.noConfusion hp
  | some cs =>
    rw [hn] at hp
    injection hp with hp
    exact ⟨cs, rfl, hp.symm⟩

/-- Parsing raises exactly when the netloc bracket validation raises. -/
theorem urlparse_path_eq_none_iff (url : String) :
    urlparse_path url = none ↔
      splitNetloc (splitScheme (sanitizeUrl url.data)) = none := by
  unfold urlparse_path
  cases splitNetloc (splitScheme (sanitizeUrl url.data)) <;> simp

/-- Extraction raises exactly when the URL parse raises. -/
theorem get_filename_eq_none_iff (url : String) :
    get_filename_from_url url = none ↔ urlparse_path url = none := by
  unfold get_filename_from_url
  cases urlparse_path url with
  | none => simp
  | some p =>
    simp only [Option.some.injEq, reduceCtorEq, iff_false]
    split <;> simp

/-- On a successful parse, extraction reduces to the basename test. -/
theorem get_filename_of_some {url : String} {p : List Char}
    (hp : urlparse_path url = some p) :
    get_filename_from_url url =
      (if (afterLastSlash p).isEmpty || !(afterLastSlash p).contains '.' then
        some "image.jpg" else some (String.mk (afterLastSlash p))) := by
  unfold get_filename_from_url
  rw [hp]

/-- A character of the parsed path is a character of the sanitized URL, and
is neither `#` nor `?`. -/
theorem mem_urlparse_path {a : Char} {url : String} {path : List Char}
    (hp : urlparse_path url = some path) (h : a ∈ path) :
    a ∈ sanitizeUrl url.data ∧ a ≠ '#' ∧ a ≠ '?' := by
  obtain ⟨cs, hcs, hpe⟩ := urlparse_path_some hp
  subst hpe
  have h1 := mem_splitParams h
  have hq := List.mem_takeWhile_imp h1
  have h2 := (List.takeWhile_sublist _).subset h1
  have hh := List.mem_takeWhile_imp h2
  have h3 := (List.takeWhile_sublist _).subset h2
  exact ⟨mem_splitScheme (mem_splitNetloc hcs h3), by simpa using hh,
    by simpa using hq⟩

/-- A list with no colon, slash, `#`, `?`, `;`, tab, CR or LF, headed by a
printable character, parses without raising to itself. -/
theorem urlparse_path_fixed (l : List Char)
    (hslash : ∀ c ∈ l, c ≠ '/') (hcolon : ∀ c ∈ l, c ≠ ':')
    (hhash : ∀ c ∈ l, c ≠ '#') (hq : ∀ c ∈ l, c ≠ '?')
    (hsemi : ∀ c ∈ l, c ≠ ';')
    (hctl : ∀ c ∈ l, (c != '\t' && c != '\r' && c != '\n') = true)
    (hhead : ∀ c t, l = c :: t → 0x20 < c.toNat) :
    urlparse_path (String.mk l) = some l := by
  have hsan : sanitizeUrl l = l := by
    unfold sanitizeUrl
    have hdrop : l.dropWhile (fun c => c.toNat ≤ 0x20) = l := by
      cases l with
      | nil => rfl
      | cons c t =>
        exact List.dropWhile_cons_of_neg (by simpa using hhead c t rfl)
    rw [hdrop, List.filter_eq_self.mpr hctl]
  have hscheme : splitScheme l = l := by
    simp only [splitScheme]
    rw [List.takeWhile_eq_self_iff.mpr (fun c hc => by simp [hcolon c hc])]
    simp
  have hnet : splitNetloc l = some l := by
    unfold splitNetloc
    rw [if_neg]
    intro htake
    have : '/' ∈ l.take 2 := by rw [htake]; exact List.mem_cons_self ..
    exact absurd rfl (hslash '/' (List.take_subset _ _ this))
  have hw1 : l.takeWhile (fun c => c != '#') = l :=
    List.takeWhile_eq_self_iff.mpr (fun c hc => by simp [hhash c hc])
  have hw2 : l.takeWhile (fun c => c != '?') = l :=
    List.takeWhile_eq_self_iff.mpr (fun c hc => by simp [hq c hc])
  have hparams : splitParams l = l := by
    unfold splitParams
    rw [contains_eq_false_of_forall hsemi]
    simp
  unfold urlparse_path
  show (match splitNetloc (splitScheme (sanitizeUrl l)) with
    | none => none
    | some cs => some (splitParams ((cs.takeWhile (fun c => c != '#')).takeWhile
        (fun c => c != '?')))) = some l
  rw [hsan, hscheme, hnet]
  show some (splitParams ((l.takeWhile (fun c => c != '#')).takeWhile
    (fun c => c != '?'))) = some l
  rw [hw1, hw2, hparams]

/-- A nonempty dotted list with the properties of `urlparse_path_fixed` is a
fixed point of the whole filename extraction. -/
theorem get_filename_fixed (l : List Char) (hne : l ≠ [])
    (hdot : l.contains '.' = true)
    (hslash : ∀ c ∈ l, c ≠ '/') (hcolon : ∀ c ∈ l, c ≠ ':')
    (hhash : ∀ c ∈ l, c ≠ '#') (hq : ∀ c ∈ l, c ≠ '?')
    (hsemi : ∀ c ∈ l, c ≠ ';')
    (hctl : ∀ c ∈ l, (c != '\t' && c != '\r' && c != '\n') = true)
    (hhead : ∀ c t, l = c :: t → 0x20 < c.toNat) :
    get_filename_from_url (String.mk l) = some (String.mk l) := by
  rw [get_filename_of_some (urlparse_path_fixed l hslash hcolon hhash hq
    hsemi hctl hhead), afterLastSlash_eq_self hslash]
  have hne' : l.isEmpty = false := by
    rw [Bool.eq_false_iff]
    intro hi
    exact hne (List.isEmpty_iff.mp hi)
  have hdm : '.' ∈ l := List.mem_of_elem_eq_true hdot
  simp [hne', hdm]

/-- C6 counterexample: Filename extraction is neither total nor idempotent:
on `http://[/a.jpg` the URL parse raises `ValueError: Invalid IPv6 URL`
(an unmatched bracket in the netloc), so extraction raises instead of
returning; and from `http://h/a:b.jpg` it extracts `a:b.jpg`, but
re-extracting from `a:b.jpg` re-parses `a:` as a URL scheme and yields
`b.jpg`. -/
theorem filename_extraction_counterexample :
    get_filename_from_url "http://[/a.jpg" = none ∧
    get_filename_from_url "http://h/a:b.jpg" = some "a:b.jpg" ∧
    get_filename_from_url "a:b.jpg" = some "b.jpg" := by
  decide

/-- C6 amended: Filename extraction is pure but not total: it raises
exactly when `urlparse` raises on the netloc bracket validation (e.g.
`ValueError: Invalid IPv6 URL` for an unmatched `[`). Whenever it returns,
the name is nonempty and contains a `.`; it is exactly the final
parsed-path segment when that segment exists and contains a `.`, and the
fixed fallback `image.jpg` otherwise; and extraction is idempotent on every returned filename that contains no colon
and does not start with a space or control character (a colon makes the
re-parse read a scheme; a leading space/control character is stripped by
the re-parse). -/
theorem filename_extraction_spec (url : String) :
    (get_filename_from_url url = none ↔
      splitNetloc (splitScheme (sanitizeUrl url.data)) = none) ∧
    (∀ f, get_filename_from_url url = some f →
      f ≠ "" ∧ f.data.contains '.' = true) ∧
    (∀ path, urlparse_path url = some path →
      afterLastSlash path ≠ [] →
      (afterLastSlash path).contains '.' = true →
      get_filename_from_url url = some (String.mk (afterLastSlash path))) ∧
    (∀ path, urlparse_path url = some path →
      (afterLastSlash path = [] ∨ (afterLastSlash path).contains '.' = false) →
      get_filename_from_url url = some "image.jpg") ∧
    (∀ f, get_filename_from_url url = some f →
      f.data.contains ':' = false →
      0x20 < (f.data.headD 'a').toNat →
      get_filename_from_url f = some f) := by
  refine ⟨(get_filename_eq_none_iff url).trans (urlparse_path_eq_none_iff url),
    ?_, ?_, ?_, ?_⟩
  · intro f hf
    cases hp : urlparse_path url with
    | none =>
      rw [(get_filename_eq_none_iff url).mpr hp] at hf
      exact Option.noConfusion hf
    | some p =>
      rw [get_filename_of_some hp] at hf
      by_cases hb : ((afterLastSlash p).isEmpty
          || !(afterLastSlash p).contains '.') = true
      · rw [if_pos hb] at hf
        injection hf with hf
        subst hf
        exact ⟨by decide, by decide⟩
      · rw [if_neg hb] at hf
        injection hf with hf
        subst hf
        rw [Bool.or_eq_true, not_or, Bool.not_eq_true, Bool.not_eq_true] at hb
        obtain ⟨hbe, hbd'⟩ := hb
        refine ⟨?_, by simpa using hbd'⟩
        intro hs
        have hnil : afterLastSlash p = [] := congrArg String.data hs
        rw [hnil] at hbe
        exact absurd rfl (Bool.eq_false_iff.mp hbe)
  · intro path hp hne hdot
    have h1 : (afterLastSlash path).isEmpty = false := by
      rw [Bool.eq_false_iff]
      intro hi
      exact hne (List.isEmpty_iff.mp hi)
    have hdm : '.' ∈ afterLastSlash path := List.mem_of_elem_eq_true hdot
    rw [get_filename_of_some hp, if_neg (by simp [h1, hdm])]
  · intro path hp hempty
    have hb : ((afterLastSlash path).isEmpty
        || !(afterLastSlash path).contains '.') = true := by
      rcases hempty with h | h
      · simp [h]
      · have hnm : '.' ∉ afterLastSlash path := fun hm =>
          absurd (List.elem_eq_true_of_mem hm) (Bool.eq_false_iff.mp h)
        simp [hnm]
    rw [get_filename_of_some hp, if_pos hb]
  · intro f hf hcol hhead
    cases hp : urlparse_path url with
    | none =>
      rw [(get_filename_eq_none_iff url).mpr hp] at hf
      exact Option.noConfusion hf
    | some p =>
      rw [get_filename_of_some hp] at hf
      by_cases hb : ((afterLastSlash p).isEmpty
          || !(afterLastSlash p).contains '.') = true
      · rw [if_pos hb] at hf
        injection hf with hf
        subst hf
        decide
      · rw [if_neg hb] at hf
        injection hf with hf
        subst hf
        rw [Bool.or_eq_true, not_or, Bool.not_eq_true, Bool.not_eq_true] at hb
        obtain ⟨hbe, hbd'⟩ := hb
        have hbd : (afterLastSlash p).contains '.' = true := by simpa using hbd'
        have hne : afterLastSlash p ≠ [] := by
          intro hl
          rw [hl] at hbe
          exact absurd rfl (Bool.eq_false_iff.mp hbe)
        refine get_filename_fixed _ hne hbd
          (fun c hc => afterLastSlash_ne_slash hc)
          (fun c hc hce => by
            subst hce
            exact absurd (List.elem_eq_true_of_mem hc)
              (Bool.eq_false_iff.mp hcol))
          (fun c hc => (mem_urlparse_path hp (mem_afterLastSlash hc)).2.1)
          (fun c hc => (mem_urlparse_path hp (mem_afterLastSlash hc)).2.2)
          (fun c hc hce => by
            subst hce
            obtain ⟨cs, hcs, hpe⟩ := urlparse_path_some hp
            rw [hpe] at hc
            exact semicolon_not_mem_basename _ hc)
          (fun c hc => by
            have hs := (mem_urlparse_path hp (mem_afterLastSlash hc)).1
            exact (List.mem_filter.mp hs).2)
          (fun c t hct => by
            rw [hct] at hhead
            exact hhead)

/-- C6 witness: The amended properties applied at the concrete URL
`https://images.dog.ceo/breeds/hound/n1.jpg`, whose extracted filename
`n1.jpg` is nonempty, and has no colon and a printable head, so extraction
is idempotent there. -/
theorem filename_extraction_spec_witness :
    ("n1.jpg" : String) ≠ "" ∧
    get_filename_from_url "n1.jpg" = some "n1.jpg" :=
  ⟨((filename_extraction_spec "https://images.dog.ceo/breeds/hound/n1.jpg").2.1
      "n1.jpg" (by decide)).1,
   (filename_extraction_spec
      "https://images.dog.ceo/breeds/hound/n1.jpg").2.2.2.2
      "n1.jpg" (by decide) (by decide) (by decide)⟩

/-! ## Round-trip of the saved document (for C8) -/

/-- Lower hex digits code their value. -/
theorem hexDigitValue_hexDigitLower : ∀ n < 16, hexDigitValue (hexDigitLower n) = some n := by
  decide

/-- Parsing undoes one character's escaping. -/
theorem parseStringBody_escape (c : Char) (rest : List Char) :
    parseStringBody (pyEscapeChar c ++ rest) =
      (parseStringBody rest).map (fun p => (c :: p.1, p.2)) := by
  unfold pyEscapeChar
  split_ifs with h1 h2 h3 h4 h5 h6 h7 h8
  · subst h1
    rw [parseStringBody.eq_def]
    simp [escCode]
  · subst h2
    rw [parseStringBody.eq_def]
    simp [escCode]
  · subst h3
    rw [parseStringBody.eq_def]
    simp [escCode]
  · subst h4
    rw [parseStringBody.eq_def]
    simp [escCode]
  · subst h5
    rw [parseStringBody.eq_def]
    simp [escCode]
  · subst h6
    rw [parseStringBody.eq_def]
    simp [escCode]
  · subst h7
    rw [parseStringBody.eq_def]
    simp [escCode]
  · have hlt : c.toNat < 0x20 := h8
    simp only [List.cons_append, List.nil_append]
    rw [parseStringBody.eq_def]
    have e0 : hexDigitValue '0' = some 0 := rfl
    simp only [e0, hexDigitValue_hexDigitLower (c.toNat / 16) (by omega),
      hexDigitValue_hexDigitLower (c.toNat % 16) (by omega)]
    have harith : ((0 * 16 + 0) * 16 + c.toNat / 16) * 16 + c.toNat % 16 = c.toNat := by
      omega
    simp only [harith, Char.ofNat_toNat]
    simp
  · simp only [List.cons_append, List.nil_append]
    rw [parseStringBody.eq_def]
    simp [h1, h2]

/-- Parsing a rendered string body recovers the characters and stops at the
closing quote. -/
theorem parseStringBody_render (l : List Char) (rest : List Char) :
    parseStringBody (l.flatMap pyEscapeChar ++ ('"' :: rest)) = some (l, rest) := by
  induction l with
  | nil =>
    simp only [List.flatMap_nil, List.nil_append]
    rw [parseStringBody.eq_def]
    simp
  | cons c t ih =>
    rw [List.flatMap_cons, List.append_assoc, parseStringBody_escape, ih]
    rfl

/-- Escape-free text (such as the five key names) parses as itself. -/
theorem parseStringBody_plain {l : List Char} (rest : List Char)
    (h : ∀ c ∈ l, c ≠ '"' ∧ c ≠ '\\') :
    parseStringBody (l ++ ('"' :: rest)) = some (l, rest) := by
  induction l with
  | nil =>
    simp only [List.nil_append]
    rw [parseStringBody.eq_def]
    simp
  | cons c t ih =>
    obtain ⟨h1, h2⟩ := h c (List.mem_cons_self ..)
    rw [List.cons_append, parseStringBody.eq_def]
    simp [h1, h2, ih (fun d hd => h d (List.mem_cons_of_mem _ hd))]

/-- Leading whitespace is skipped. -/
theorem dropJsonWs_append {ws l : List Char} (h : ∀ c ∈ ws, isJsonWs c = true) :
    dropJsonWs (ws ++ l) = dropJsonWs l := by
  unfold dropJsonWs
  rw [List.dropWhile_append, if_pos]
  rw [List.isEmpty_iff]
  exact List.dropWhile_eq_nil_iff.mpr h

/-- A non-whitespace head is kept. -/
theorem dropJsonWs_cons {c : Char} {t : List Char} (h : isJsonWs c = false) :
    dropJsonWs (c :: t) = c :: t :=
  List.dropWhile_cons_of_neg (by simp [h])

/-- Parsing a rendered string-or-null value. -/
theorem parseOptString_render (o : Option String) (rest : List Char) :
    parseOptString (renderOptString o rest) = some (o, rest) := by
  cases o with
  | none => rfl
  | some s =>
    show parseOptString ('"' :: (s.data.flatMap pyEscapeChar ++ ('"' :: rest))) = _
    have hs := parseStringBody_render s.data rest
    simp [parseOptString, hs]

/-- Leading whitespace (the indentation/newlines the renderer emits) is
invisible to a token. -/
theorem dropJsonWs_ws_append {ws l : List Char} (h : ∀ c ∈ ws, isJsonWs c = true) :
    dropJsonWs (ws ++ l) = dropJsonWs l := by
  unfold dropJsonWs
  rw [List.dropWhile_append, if_pos]
  rw [List.isEmpty_iff]
  exact List.dropWhile_eq_nil_iff.mpr h

/-- An `expectChar` reads its token through leading whitespace. -/
theorem expectChar_pre (a : Char) (pre t : List Char)
    (hpre : ∀ c ∈ pre, isJsonWs c = true) (ha : isJsonWs a = false) :
    expectChar a (pre ++ a :: t) = some t := by
  unfold expectChar
  rw [dropJsonWs_ws_append hpre, dropJsonWs_cons ha]
  simp

/-- An `expectChar` at an immediate comma. -/
theorem expectChar_comma (t : List Char) : expectChar ',' (',' :: t) = some t := by
  unfold expectChar
  rw [dropJsonWs_cons (by decide)]
  simp

/-- An `expectChar` at the closing-brace line of a record. -/
theorem expectChar_close (t : List Char) :
    expectChar '\x7d' ('\n' :: (ind4 ++ '\x7d' :: t)) = some t := by
  have h := expectChar_pre '\x7d' ('\n' :: ind4) t (by decide) (by decide)
  simpa using h

/-- Parsing one rendered member line (after one newline of leading
whitespace) yields its value. -/
theorem parseMember_render (key : String) (o : Option String) (rest : List Char)
    (hkey : ∀ c ∈ key.data, c ≠ '"' ∧ c ≠ '\\') :
    parseMember key ('\n' :: renderMember key o rest) = some (o, rest) := by
  have h1 : dropJsonWs ('\n' :: renderMember key o rest) =
      '"' :: (key.data ++ '"' :: ':' :: ' ' :: renderOptString o rest) := by
    unfold renderMember
    rw [show ('\n' :: (ind8 ++ '"' ::
        (key.data ++ '"' :: ':' :: ' ' :: renderOptString o rest)) : List Char) =
      ('\n' :: ind8) ++ '"' ::
        (key.data ++ '"' :: ':' :: ' ' :: renderOptString o rest) from by simp]
    rw [dropJsonWs_ws_append (by decide), dropJsonWs_cons (by decide)]
  have h2 : parseStringBody
      (key.data ++ ('"' :: (':' :: ' ' :: renderOptString o rest))) =
      some (key.data, ':' :: ' ' :: renderOptString o rest) :=
    parseStringBody_plain _ hkey
  have h3 : dropJsonWs (':' :: ' ' :: renderOptString o rest) =
      ':' :: ' ' :: renderOptString o rest := dropJsonWs_cons (by decide)
  have h4 : dropJsonWs (' ' :: renderOptString o rest) = renderOptString o rest := by
    rw [show (' ' :: renderOptString o rest : List Char) =
      [' '] ++ renderOptString o rest from rfl]
    rw [dropJsonWs_ws_append (by decide)]
    cases o with
    | none => exact dropJsonWs_cons (by decide)
    | some s => exact dropJsonWs_cons (by decide)
  simp [parseMember, h1, h2, h3, h4, parseOptString_render]

/-- The string-member wrapper on a rendered (non-null) member. -/
theorem parseStrMember_render (key : String) (sv : String) (rest : List Char)
    (hkey : ∀ c ∈ key.data, c ≠ '"' ∧ c ≠ '\\') :
    parseStrMember key ('\n' :: renderMember key (some sv) rest) = some (sv, rest) := by
  unfold parseStrMember
  rw [parseMember_render key (some sv) rest hkey]

/-- Specializes `parseStrMember_render` at the key `breed`. -/
theorem parseStrMember_breed (sv : String) (rest : List Char) :
    parseStrMember "breed" ('\n' :: renderMember "breed" (some sv) rest) =
      some (sv, rest) :=
  parseStrMember_render _ _ _ (by decide)

/-- Specializes `parseMember_render` at the key `sub_breed`. -/
theorem parseMember_sub_breed (o : Option String) (rest : List Char) :
    parseMember "sub_breed" ('\n' :: renderMember "sub_breed" o rest) =
      some (o, rest) :=
  parseMember_render _ _ _ (by decide)

/-- Specializes `parseMember_render` at the key `image_url`. -/
theorem parseMember_image_url (o : Option String) (rest : List Char) :
    parseMember "image_url" ('\n' :: renderMember "image_url" o rest) =
      some (o, rest) :=
  parseMember_render _ _ _ (by decide)

/-- Specializes `parseStrMember_render` at the key `yandex_disk_path`. -/
theorem parseStrMember_path (sv : String) (rest : List Char) :
    parseStrMember "yandex_disk_path"
        ('\n' :: renderMember "yandex_disk_path" (some sv) rest) =
      some (sv, rest) :=
  parseStrMember_render _ _ _ (by decide)

/-- Specializes `parseStrMember_render` at the key `status`. -/
theorem parseStrMember_status (sv : String) (rest : List Char) :
    parseStrMember "status" ('\n' :: renderMember "status" (some sv) rest) =
      some (sv, rest) :=
  parseStrMember_render _ _ _ (by decide)

/-- Parsing one rendered record object (through leading whitespace) yields
the record. -/
theorem parseRecord_render (r : UploadRecord) (pre rest : List Char)
    (hpre : ∀ c ∈ pre, isJsonWs c = true) :
    parseRecord (pre ++ renderRecord r rest) = some (r, rest) := by
  unfold parseRecord renderRecord
  rw [expectChar_pre '\x7b' pre _ hpre (by decide)]
  simp [parseStrMember_breed, parseMember_sub_breed, parseMember_image_url,
    parseStrMember_path, parseStrMember_status, expectChar_comma, expectChar_close]

/-- Parsing the rendered item list: one record, then either the closing
bracket line or a comma and the rest. -/
theorem parseItems_render :
    ∀ (rs : List UploadRecord) (fuel : Nat) (r : UploadRecord)
      (pre rest : List Char), (∀ c ∈ pre, isJsonWs c = true) →
      rs.length < fuel →
      parseItems fuel (pre ++ renderRecord r (renderResultsTail rs rest)) =
        some (r :: rs, rest) := by
  intro rs
  induction rs with
  | nil =>
    intro fuel r pre rest hpre hfuel
    match fuel, hfuel with
    | fuel + 1, _ =>
      have hd : dropJsonWs (renderResultsTail ([] : List UploadRecord) rest) =
          ']' :: rest := by
        unfold renderResultsTail
        rw [show ('\n' :: ']' :: rest : List Char) = ['\n'] ++ ']' :: rest from rfl,
          dropJsonWs_ws_append (by decide), dropJsonWs_cons (by decide)]
      unfold parseItems
      rw [parseRecord_render r pre _ hpre]
      simp [hd]
  | cons r1 rs' ih =>
    intro fuel r pre rest hpre hfuel
    match fuel, hfuel with
    | fuel + 1, hfuel =>
      have hd : dropJsonWs (renderResultsTail (r1 :: rs') rest) =
          ',' :: ('\n' :: (ind4 ++ renderRecord r1 (renderResultsTail rs' rest))) := by
        rw [show renderResultsTail (r1 :: rs') rest =
          ',' :: '\n' :: (ind4 ++ renderRecord r1 (renderResultsTail rs' rest)) from rfl]
        exact dropJsonWs_cons (show isJsonWs ',' = false from by decide)
      have hih : parseItems fuel
          ('\n' :: (ind4 ++ renderRecord r1 (renderResultsTail rs' rest))) =
          some (r1 :: rs', rest) := by
        rw [show ('\n' :: (ind4 ++ renderRecord r1 (renderResultsTail rs' rest)) :
            List Char) =
          ('\n' :: ind4) ++ renderRecord r1 (renderResultsTail rs' rest) from by simp]
        exact ih fuel r1 ('\n' :: ind4) rest (by decide)
          (Nat.lt_of_succ_lt_succ hfuel)
      unfold parseItems
      rw [parseRecord_render r pre _ hpre]
      simp [hd, hih]

/-- Whatever follows it, a rendered member is at least as long as its
continuation. -/
theorem renderMember_length_le (key : String) (o : Option String)
    (rest : List Char) : rest.length ≤ (renderMember key o rest).length := by
  cases o <;> simp [renderMember, renderOptString, renderJsonString] <;> omega

/-- A rendered record is at least as long as its continuation. -/
theorem renderRecord_length_le (r : UploadRecord) (rest : List Char) :
    rest.length ≤ (renderRecord r rest).length := by
  unfold renderRecord
  have h5 := renderMember_length_le "status" (some r.status)
    ('\n' :: (ind4 ++ '\x7d' :: rest))
  have h4 := renderMember_length_le "yandex_disk_path" (some r.yandex_disk_path)
    (',' :: '\n' :: renderMember "status" (some r.status)
      ('\n' :: (ind4 ++ '\x7d' :: rest)))
  have h3 := renderMember_length_le "image_url" r.image_url (',' :: '\n' ::
    renderMember "yandex_disk_path" (some r.yandex_disk_path)
      (',' :: '\n' :: renderMember "status" (some r.status)
        ('\n' :: (ind4 ++ '\x7d' :: rest))))
  have h2 := renderMember_length_le "sub_breed" r.sub_breed (',' :: '\n' ::
    renderMember "image_url" r.image_url (',' :: '\n' ::
      renderMember "yandex_disk_path" (some r.yandex_disk_path)
        (',' :: '\n' :: renderMember "status" (some r.status)
          ('\n' :: (ind4 ++ '\x7d' :: rest)))))
  have h1 := renderMember_length_le "breed" (some r.breed) (',' :: '\n' ::
    renderMember "sub_breed" r.sub_breed (',' :: '\n' ::
      renderMember "image_url" r.image_url (',' :: '\n' ::
        renderMember "yandex_disk_path" (some r.yandex_disk_path)
          (',' :: '\n' :: renderMember "status" (some r.status)
            ('\n' :: (ind4 ++ '\x7d' :: rest))))))
  simp only [List.length_cons, List.length_append, ind4] at *
  omega

/-- The rendered tail holds at least one character per record. -/
theorem renderResultsTail_length_le :
    ∀ (rs : List UploadRecord) (rest : List Char),
      rs.length ≤ (renderResultsTail rs rest).length := by
  intro rs
  induction rs with
  | nil => intro rest; simp [renderResultsTail]
  | cons r rs' ih =>
    intro rest
    have h1 := ih rest
    have h2 := renderRecord_length_le r (renderResultsTail rs' rest)
    simp only [renderResultsTail, List.length_cons, List.length_append, ind4]
    simp only [ind4] at h2
    omega

/-- Parsing the whole rendered document yields the records and no leftover. -/
theorem parseResults_render (rs : List UploadRecord) :
    parseResults (renderResults rs) = some (rs, []) := by
  cases rs with
  | nil => rfl
  | cons r rs' =>
    have hlen : rs'.length < ('[' :: '\n' ::
        (ind4 ++ renderRecord r (renderResultsTail rs' []))).length + 1 := by
      have h1 := renderResultsTail_length_le rs' ([] : List Char)
      have h2 := renderRecord_length_le r (renderResultsTail rs' [])
      simp only [List.length_cons, List.length_append, ind4] at *
      omega
    have hitems : parseItems (('[' :: '\n' ::
        (ind4 ++ renderRecord r (renderResultsTail rs' []))).length + 1)
        ('\n' :: (ind4 ++ renderRecord r (renderResultsTail rs' []))) =
        some (r :: rs', []) := by
      rw [show ('\n' :: (ind4 ++ renderRecord r (renderResultsTail rs' [])) :
          List Char) =
        ('\n' :: ind4) ++ renderRecord r (renderResultsTail rs' []) from by simp]
      exact parseItems_render rs' _ r ('\n' :: ind4) [] (by decide) hlen
    have hd : dropJsonWs ('\n' :: (ind4 ++ renderRecord r (renderResultsTail rs' []))) =
        renderRecord r (renderResultsTail rs' []) := by
      rw [show ('\n' :: (ind4 ++ renderRecord r (renderResultsTail rs' [])) :
          List Char) =
        ('\n' :: ind4) ++ renderRecord r (renderResultsTail rs' []) from by simp]
      rw [dropJsonWs_ws_append (by decide)]
      unfold renderRecord
      exact dropJsonWs_cons (show isJsonWs '\x7b' = false from by decide)
    have hrr : renderRecord r (renderResultsTail rs' []) = '\x7b' ::
        ('\n' :: renderMember "breed" (some r.breed) (',' :: '\n' ::
          renderMember "sub_breed" r.sub_breed (',' :: '\n' ::
            renderMember "image_url" r.image_url (',' :: '\n' ::
              renderMember "yandex_disk_path" (some r.yandex_disk_path) (',' :: '\n' ::
                renderMember "status" (some r.status)
                  ('\n' :: (ind4 ++ '\x7d' :: renderResultsTail rs' []))))))) := rfl
    rw [hrr] at hd hitems
    show parseResults ('[' :: '\n' ::
      (ind4 ++ renderRecord r (renderResultsTail rs' []))) = _
    rw [hrr]
    simp only [parseResults,
      dropJsonWs_cons (show isJsonWs '[' = false from by decide)]
    rw [hd]
    exact hitems

/-- C8 round-trip core: `json.loads` of the saved text returns exactly
the in-memory records. -/
theorem json_loads_renderResults (rs : List UploadRecord) :
    json_loads_results (String.mk (renderResults rs)) = some rs := by
  unfold json_loads_results
  rw [show (String.mk (renderResults rs)).data = renderResults rs from rfl,
    parseResults_render rs]
  rfl

/-- C8: `ResultSaver.save` serializes the records as a pretty-printed
JSON array (UTF-8 text, `ensure_ascii=False`, `indent=4`): parsing the
written text yields a sequence equal to the in-memory records; characters
at or above `0x20` other than `"` and `\` — all non-ASCII in particular —
are kept literal; and an I/O failure during the save is only reported (the
run still ends in `done`, with no file written). -/
theorem results_persist_spec (records : List UploadRecord) :
    json_loads_results (String.mk (renderResults records)) = some records ∧
    (∀ c : Char, 0x20 ≤ c.toNat → c ≠ '"' → c ≠ '\\' → pyEscapeChar c = [c]) ∧
    (∀ (env : RunEnv) (subs : List String),
      pyStrip env.tokenInput ≠ "" →
      List.lookup (pyLower (pyStrip env.breedInput))
        (get_all_breeds env.catalogResp) = some subs →
      create_folder env.folderResp = true →
      (run env false).exit = RunExit.done ∧
      (run env false).saveErrorShown = true ∧
      (run env false).fileWritten = false) := by
  refine ⟨json_loads_renderResults records, ?_, ?_⟩
  · intro c h1 h2 h3
    unfold pyEscapeChar
    rw [if_neg h2, if_neg h3,
      if_neg (fun he => by subst he; exact absurd h1 (by decide)),
      if_neg (fun he => by subst he; exact absurd h1 (by decide)),
      if_neg (fun he => by subst he; exact absurd h1 (by decide)),
      if_neg (fun he => by subst he; exact absurd h1 (by decide)),
      if_neg (fun he => by subst he; exact absurd h1 (by decide)),
      if_neg (show ¬ c.toNat < 0x20 by omega)]
  · intro env subs htok hsubs hfold
    have hne : (get_all_breeds env.catalogResp).isEmpty = false := by
      cases hcat : get_all_breeds env.catalogResp with
      | nil => rw [hcat] at hsubs; simp [List.lookup] at hsubs
      | cons a l => rfl
    unfold run
    simp [if_neg htok, hne, hsubs, hfold]

/-- C8 witness: The round-trip at one concrete record, literalness at
the non-ASCII `я`, and a completed run despite a failing save, all via
`results_persist_spec`. -/
theorem results_persist_spec_witness :
    json_loads_results (String.mk (renderResults
      [⟨"hound", none, some "https://x/a.jpg", "/hound/hound_a.jpg", "uploaded"⟩])) =
      some [⟨"hound", none, some "https://x/a.jpg", "/hound/hound_a.jpg", "uploaded"⟩] ∧
    pyEscapeChar 'я' = ['я'] ∧
    (run houndEnv false).exit = RunExit.done :=
  ⟨(results_persist_spec
      [⟨"hound", none, some "https://x/a.jpg", "/hound/hound_a.jpg", "uploaded"⟩]).1,
   (results_persist_spec []).2.1 'я' (by decide) (by decide) (by decide),
   ((results_persist_spec []).2.2 houndEnv ["afghan", "blood"] (by decide)
     (by decide) (by decide)).1⟩

end DogApi
